import Mathlib

/-!
Verification of the prae validated-newtype library.

The embedding translates the Rust source as follows. A `Bound::process`
function of type `fn(&mut T) -> Result<(), E>` mutates its argument in
place, so it becomes a pure function `T → T × Option E` returning the
possibly adjusted value together with the outcome (`none` models `Ok(())`,
`some e` models `Err(e)`). The `Bounded<T, B>` container from
`prae/src/core.rs` becomes a one-field structure; methods that take
`&mut self` return the new container state explicitly. Strings are
modelled as lists of characters and the `trim` adjustment used by the
tests and documentation removes leading and trailing space characters.
-/

namespace Prae

variable {T E O Ea Eb : Type}

/-- Model of `str::trim` restricted to the space character, which is the
only whitespace appearing in the concrete scenarios. -/
def isSpace (c : Char) : Bool := c == ' '

/-- Remove leading and trailing spaces: drop from the front, reverse, drop
from the front again, reverse back. -/
def trim (s : List Char) : List Char :=
  ((s.dropWhile isSpace).reverse.dropWhile isSpace).reverse

/-- The `PROCESS` function generated by the `define!` macro
(`prae/src/lib.rs`): the adjust closure runs first and always succeeds,
then the validation closure runs on the adjusted value. The value
returned alongside an error is the adjusted one, because the Rust process
mutates the value in place before validation. -/
def mkProcess (adjust : T → T) (validate : T → Option E) : T → T × Option E :=
  fun v => (adjust v, validate (adjust v))

/-- The `ensure` form of validation (`define!`, optional closures 2): a
boolean predicate mapped to the fixed error string `"value is invalid"`. -/
def ensureValidate (ensure : T → Bool) : T → Option String :=
  fun v => if ensure v then none else some "value is invalid"

/-- The `PROCESS` function generated by the `extend!` macro
(`prae/src/lib.rs` lines 563-579): the base wrapper PROCESS runs first
and its error short-circuits through `?` (modelled by the error embedding
`emb`, the `From` conversion, which is the identity when the error types
coincide); only on success do the extending adjust and validate run. -/
def extendProcess (base : T → T × Option Ea) (emb : Ea → Eb)
    (adjust : T → T) (validate : T → Option Eb) : T → T × Option Eb :=
  fun v =>
    match base v with
    | (v1, some e) => (v1, some (emb e))
    | (v1, none) => (adjust v1, validate (adjust v1))

/-- The `Bounded<T, B>` wrapper from `prae/src/core.rs`: a thin container
holding exactly one inner value (the `PhantomData` type tag has no
runtime content, so the bound appears as a function argument instead). -/
structure Bounded (T : Type) where
  value : T
deriving DecidableEq

/-- `ConstructionError` from `prae/src/core.rs`: the inner bound error
plus the value that failed the process. -/
structure ConstructionError (T E : Type) where
  inner : E
  value : T
deriving DecidableEq

/-- `MutationError` from `prae/src/core.rs`: the inner bound error, the
value before the attempted mutation and the value that failed. -/
structure MutationError (T E : Type) where
  inner : E
  old_value : T
  new_value : T
deriving DecidableEq

/-- `VerificationError` carried by `verify` (`prae/src/lib.rs`). -/
structure VerificationError (T E : Type) where
  original : E
  value : T
deriving DecidableEq

/-- `Bounded::new` (`prae/src/core.rs` lines 46-55): run the process on
the (already converted) value; store it on success, otherwise return a
construction error carrying the processed value. -/
def Bounded.new (p : T → T × Option E) (v : T) :
    Except (ConstructionError T E) (Bounded T) :=
  match p v with
  | (v1, none) => .ok ⟨v1⟩
  | (v1, some e) => .error ⟨e, v1⟩

/-- `Bounded::get`: shared read access to the inner value. -/
def Bounded.get (g : Bounded T) : T := g.value

/-- `Bounded::set` (`prae/src/core.rs` lines 64-76). The Rust method
mutates `self` and returns `Result<(), _>`; here it returns the new
container state paired with the optional error. On the error path the
Rust code never assigns `self.0`, which the embedding renders by
returning the incoming container unchanged. -/
def Bounded.set (p : T → T × Option E) (g : Bounded T) (v : T) :
    Bounded T × Option (ConstructionError T E) :=
  match p v with
  | (v1, none) => (⟨v1⟩, none)
  | (v1, some e) => (g, some ⟨e, v1⟩)

/-- `Bounded::mutate` (`prae/src/core.rs` lines 83-101), the fallible
clone-based mutation (`__mutate_with` in `prae/src/lib.rs` has the same
body): the closure and the process run on a clone; the clone is committed
only on success, and on failure the error carries the old live value and
the processed clone. -/
def Bounded.mutate (p : T → T × Option E) (g : Bounded T) (f : T → T) :
    Bounded T × Option (MutationError T E) :=
  match p (f g.value) with
  | (v1, none) => (⟨v1⟩, none)
  | (v1, some e) => (g, some ⟨e, g.value, v1⟩)

/-- Modelled from the spec: the panicking `mutate` of the `Wrapper` trait
is not under `src/` (only the tests call it; `prae/src/lib.rs` contains
just the fallible `__mutate_with`). Per the spec it runs the closure
directly on the live value, then re-adjusts/validates, and panics when
the result is invalid; the panic is modelled by `none`. -/
def Bounded.mutatePanicking (p : T → T × Option E) (g : Bounded T) (f : T → T) :
    Option (Bounded T) :=
  match p (f g.value) with
  | (v1, none) => some ⟨v1⟩
  | (_, some _) => none

/-- `new_unprocessed` (`prae/src/core.rs` lines 106-115) in release
builds: the converted value is stored verbatim; the `debug_assert!` is
compiled out and has no effect. -/
def Bounded.new_unprocessed (v : T) : Bounded T := ⟨v⟩

/-- `set_unprocessed` (`prae/src/core.rs` lines 120-129) in release
builds: the converted value replaces the inner value verbatim. -/
def Bounded.set_unprocessed (_g : Bounded T) (v : T) : Bounded T := ⟨v⟩

/-- `mutate_unprocessed` (`prae/src/core.rs` lines 135-143) in release
builds: the closure is applied directly to the live value, nothing else
runs. -/
def Bounded.mutate_unprocessed (g : Bounded T) (f : T → T) : Bounded T :=
  ⟨f g.value⟩

/-- `verify` (`prae/src/lib.rs` lines 669-678): it runs the full
`PROCESS` on the current inner value, keeps the re-processed value on
success and otherwise returns a verification error carrying the
processed value. -/
def Bounded.verify (p : T → T × Option E) (g : Bounded T) :
    Except (VerificationError T E) (Bounded T) :=
  match p g.value with
  | (v1, none) => .ok ⟨v1⟩
  | (v1, some e) => .error ⟨e, v1⟩

/-- Definition following the spec words for claim C5, kept for
comparison with the implementation `Bounded.verify`: re-run the
validation step only, without re-running adjustment, against the current
held value. -/
def verifyValidateOnly (validate : T → Option E) (g : Bounded T) : Option E :=
  validate g.value

/-- The serde `Deserialize` impl (`prae/src/core.rs` lines 364-378):
after the raw inner value has been decoded, it is passed through
`Bounded::new` and a construction failure surfaces the inner bound error. -/
def Bounded.deserialize (p : T → T × Option E) (r : T) : Except E (Bounded T) :=
  match Bounded.new p r with
  | .ok g => .ok g
  | .error e => .error e.inner

/-- The serde `Serialize` impl (`prae/src/core.rs` lines 380-393): a pure
pass-through of the inner value. -/
def Bounded.serialize (g : Bounded T) : T := g.get

/-- `MapInnerError::map_inner` for construction results
(`prae/src/core.rs` lines 346-353): `self.map_err(|err| err.inner)`. -/
def mapInnerConstruction (r : Except (ConstructionError T E) O) : Except E O :=
  match r with
  | .ok x => .ok x
  | .error e => .error e.inner

/-- `MapInnerError::map_inner` for mutation results
(`prae/src/core.rs` lines 355-362): `self.map_err(|err| err.inner)`. -/
def mapInnerMutation (r : Except (MutationError T E) O) : Except E O :=
  match r with
  | .ok x => .ok x
  | .error e => .error e.inner

/-! Concrete contracts used by the documentation, the tests and the
concrete scenarios of the spec. -/

/-- The non-empty predicate of the Username/Text examples. -/
def nonEmptyEnsure (s : List Char) : Bool := !s.isEmpty

/-- The Username/Text contract: adjust trims whitespace, ensure requires
the result to be non-empty. -/
def usernameProcess : List Char → List Char × Option String :=
  mkProcess trim (ensureValidate nonEmptyEnsure)

/-- Ends-with-punctuation predicate of the Sentence example. -/
def endsPunct (s : List Char) : Bool :=
  match s.getLast? with
  | some c => c == '.' || c == '!' || c == '?'
  | none => false

/-- The Sentence contract: extends the Text contract (trim + non-empty)
with an ends-with-punctuation check and no extra adjustment. -/
def sentenceProcess : List Char → List Char × Option String :=
  extendProcess usernameProcess id id (ensureValidate endsPunct)

/-- A contract with a non-idempotent adjustment, expressible through the
generator exactly like any other contract: adjust increments the number. -/
def bumpAdjust (n : Nat) : Nat := n + 1

/-- Validation companion of `bumpAdjust`: accepts numbers up to one. -/
def atMostOne (n : Nat) : Option String :=
  if n ≤ 1 then none else some "value is invalid"

/-- The increment contract as a generated process. -/
def bumpProcess : Nat → Nat × Option String := mkProcess bumpAdjust atMostOne

/-- The raw input `" user "`. -/
def rawUser : List Char := [' ', 'u', 's', 'e', 'r', ' ']

/-- The trimmed value `"user"`. -/
def userChars : List Char := ['u', 's', 'e', 'r']

/-- The all-whitespace input `"   "`. -/
def blank3 : List Char := [' ', ' ', ' ']

/-- The all-whitespace input `"  "`. -/
def blank2 : List Char := [' ', ' ']

/-! Inversion helpers shared by the claim theorems. -/

theorem new_ok_iff (p : T → T × Option E) (v : T) (g : Bounded T) :
    Bounded.new p v = .ok g ↔ p v = (g.value, none) := by
  rcases hp : p v with ⟨v1, r⟩
  simp only [Bounded.new, hp]
  cases r with
  | none =>
    constructor
    · intro h
      cases h
      rfl
    · intro h
      cases h
      rfl
  | some e =>
    constructor
    · intro h
      cases h
    · intro h
      cases h

theorem new_error_iff (p : T → T × Option E) (v : T) (ce : ConstructionError T E) :
    Bounded.new p v = .error ce ↔ p v = (ce.value, some ce.inner) := by
  rcases hp : p v with ⟨v1, r⟩
  simp only [Bounded.new, hp]
  cases r with
  | none =>
    constructor
    · intro h
      cases h
    · intro h
      cases h
  | some e =>
    constructor
    · intro h
      cases h
      rfl
    · intro h
      cases h
      rfl

theorem set_eq (p : T → T × Option E) (g : Bounded T) (v : T) :
    Bounded.set p g v =
      match p v with
      | (v1, none) => (⟨v1⟩, none)
      | (v1, some e) => (g, some ⟨e, v1⟩) := rfl

theorem mutate_eq (p : T → T × Option E) (g : Bounded T) (f : T → T) :
    Bounded.mutate p g f =
      match p (f g.value) with
      | (v1, none) => (⟨v1⟩, none)
      | (v1, some e) => (g, some ⟨e, g.value, v1⟩) := rfl

/-- C1: if `new(r)` succeeds yielding a container holding value v, then
`validate(v)` reports no error; and validity of the held value is
preserved by every checked operation (`new`, `set`, `mutate`), so a
container touched only by checked paths always holds a value on which
`validate` reports no error. -/
theorem checked_paths_keep_validate_none (adjust : T → T) (validate : T → Option E) :
    (∀ (r : T) (g : Bounded T),
      Bounded.new (mkProcess adjust validate) r = .ok g → validate g.value = none) ∧
    (∀ (g : Bounded T) (v : T), validate g.value = none →
      validate ((Bounded.set (mkProcess adjust validate) g v).1).value = none) ∧
    (∀ (g : Bounded T) (f : T → T), validate g.value = none →
      validate ((Bounded.mutate (mkProcess adjust validate) g f).1).value = none) := by
  refine ⟨?_, ?_, ?_⟩
  · intro r g h
    rw [new_ok_iff] at h
    have h2 := congrArg Prod.snd h
    have h1 := congrArg Prod.fst h
    simp only [mkProcess] at h1 h2
    rw [h1] at h2
    exact h2
  · intro g v hg
    rw [set_eq]
    rcases hp : mkProcess adjust validate v with ⟨v1, r⟩
    cases r with
    | none =>
      have h1 := congrArg Prod.fst hp
      have h2 := congrArg Prod.snd hp
      simp only [mkProcess] at h1 h2
      rw [h1] at h2
      simpa using h2
    | some e =>
      simpa using hg
  · intro g f hg
    rw [mutate_eq]
    rcases hp : mkProcess adjust validate (f g.value) with ⟨v1, r⟩
    cases r with
    | none =>
      have h1 := congrArg Prod.fst hp
      have h2 := congrArg Prod.snd hp
      simp only [mkProcess] at h1 h2
      rw [h1] at h2
      simpa using h2
    | some e =>
      simpa using hg

/-- Witness for C1 at the Username contract: `new(" user ")` succeeds
holding `"user"`, which validates cleanly; a failing `set` leaves the
value valid. -/
theorem checked_paths_keep_validate_none_witness :
    ensureValidate nonEmptyEnsure (Bounded.mk userChars).value = none ∧
    ensureValidate nonEmptyEnsure
      ((Bounded.set (mkProcess trim (ensureValidate nonEmptyEnsure))
        ⟨userChars⟩ blank3).1).value = none :=
  ⟨(checked_paths_keep_validate_none trim (ensureValidate nonEmptyEnsure)).1
      rawUser ⟨userChars⟩ rfl,
   (checked_paths_keep_validate_none trim (ensureValidate nonEmptyEnsure)).2.1
      ⟨userChars⟩ blank3 rfl⟩

/-- C2: failed mutation and failed replacement are atomic: when `set`
fails the container still holds its previous value, and when the
fallible mutation fails the value observed via `get` equals the value
before the call and equals the `old_value` carried by the error. -/
theorem failed_set_mutate_atomic (p : T → T × Option E) :
    (∀ (g : Bounded T) (v : T) (g1 : Bounded T) (ce : ConstructionError T E),
      Bounded.set p g v = (g1, some ce) → g1.get = g.get) ∧
    (∀ (g : Bounded T) (f : T → T) (g1 : Bounded T) (me : MutationError T E),
      Bounded.mutate p g f = (g1, some me) →
        g1.get = g.get ∧ me.old_value = g1.get) := by
  constructor
  · intro g v g1 ce h
    rw [set_eq] at h
    rcases hp : p v with ⟨v1, r⟩
    rw [hp] at h
    cases r with
    | none => simp at h
    | some e =>
      simp only [Prod.mk.injEq] at h
      rw [h.1]
  · intro g f g1 me h
    rw [mutate_eq] at h
    rcases hp : p (f g.value) with ⟨v1, r⟩
    rw [hp] at h
    cases r with
    | none => simp at h
    | some e =>
      simp only [Prod.mk.injEq] at h
      obtain ⟨h1, h2⟩ := h
      subst h1
      constructor
      · rfl
      · cases h2
        rfl

/-- Witness for C2 at the Username contract: setting `"   "` and
mutating to `"  "` both fail and leave the container holding `"user"`. -/
theorem failed_set_mutate_atomic_witness :
    (Bounded.mk userChars).get = (Bounded.mk userChars).get ∧
    ((Bounded.mk userChars).get = (Bounded.mk userChars).get ∧
      (MutationError.mk "value is invalid" userChars ([] : List Char)).old_value
        = (Bounded.mk userChars).get) :=
  ⟨(failed_set_mutate_atomic usernameProcess).1 ⟨userChars⟩ blank3 ⟨userChars⟩
      ⟨"value is invalid", []⟩ rfl,
   (failed_set_mutate_atomic usernameProcess).2 ⟨userChars⟩ (fun _ => blank2)
      ⟨userChars⟩ ⟨"value is invalid", userChars, []⟩ rfl⟩

/-- C6: panic-vs-fallible parity. The spec-modelled panicking mutation
panics (returns `none`) exactly when the fallible clone-based
`Bounded.mutate` reports an error, and otherwise leaves the container
equal to what the fallible mutation commits. -/
theorem mutate_panicking_parity (p : T → T × Option E) (g : Bounded T) (f : T → T) :
    Bounded.mutatePanicking p g f =
      if ((Bounded.mutate p g f).2).isSome then none
      else some (Bounded.mutate p g f).1 := by
  unfold Bounded.mutatePanicking Bounded.mutate
  rcases hp : p (f g.value) with ⟨v1, r⟩
  cases r with
  | none => simp
  | some e => simp

/-- C9: the unprocessed variants bypass the pipeline entirely in release
builds: the converted value is stored verbatim, the closure acts directly
on the live value, and an invalid value (here the all-blank string, which
the Username process rejects) is stored without any error. -/
theorem unprocessed_bypasses_pipeline :
    (∀ (T : Type) (v : T), (Bounded.new_unprocessed v).value = v) ∧
    (∀ (T : Type) (g : Bounded T) (v : T), (Bounded.set_unprocessed g v).value = v) ∧
    (∀ (T : Type) (g : Bounded T) (f : T → T),
      (Bounded.mutate_unprocessed g f).value = f g.value) ∧
    (Bounded.new_unprocessed blank2).value = blank2 ∧
    (usernameProcess blank2).2 = some "value is invalid" :=
  ⟨fun _ _ => rfl, fun _ _ _ => rfl, fun _ _ _ => rfl, rfl, rfl⟩

/-- C10: `map_inner` preserves success and strips the diagnostics on
failure, keeping only the inner contract error, for both construction
and mutation results. -/
theorem map_inner_strips_diagnostics :
    (∀ (T E O : Type) (x : O),
      mapInnerConstruction (T := T) (E := E) (.ok x) = .ok x) ∧
    (∀ (T E O : Type) (ce : ConstructionError T E),
      mapInnerConstruction (O := O) (.error ce) = .error ce.inner) ∧
    (∀ (T E O : Type) (x : O),
      mapInnerMutation (T := T) (E := E) (.ok x) = .ok x) ∧
    (∀ (T E O : Type) (me : MutationError T E),
      mapInnerMutation (O := O) (.error me) = .error me.inner) :=
  ⟨fun _ _ _ _ => rfl, fun _ _ _ _ => rfl, fun _ _ _ _ => rfl, fun _ _ _ _ => rfl⟩

/-- C3: errors carry the post-adjust value, never the raw value: a failed
`new` embeds `adjust r`, a failed mutation embeds `old_value = ` the live
value and `new_value = adjust (f value)`; concretely, with adjust = trim
and validate = non-empty, `new(" user ")` succeeds holding `"user"`,
`new("   ")` fails carrying `""`, and the failed mutation of `"user"` to
`"  "` reports `old_value = "user"` and `new_value = ""` while the live
value stays `"user"`. -/
theorem errors_carry_adjusted_value :
    (∀ (T E : Type) (adjust : T → T) (validate : T → Option E) (r : T)
        (ce : ConstructionError T E),
      Bounded.new (mkProcess adjust validate) r = .error ce → ce.value = adjust r) ∧
    (∀ (T E : Type) (adjust : T → T) (validate : T → Option E) (g : Bounded T)
        (f : T → T) (g1 : Bounded T) (me : MutationError T E),
      Bounded.mutate (mkProcess adjust validate) g f = (g1, some me) →
        me.new_value = adjust (f g.value) ∧ me.old_value = g.value) ∧
    Bounded.new usernameProcess rawUser = .ok ⟨userChars⟩ ∧
    Bounded.new usernameProcess blank3 = .error ⟨"value is invalid", []⟩ ∧
    Bounded.mutate usernameProcess ⟨userChars⟩ (fun _ => blank2) =
      (⟨userChars⟩, some ⟨"value is invalid", userChars, []⟩) := by
  refine ⟨?_, ?_, rfl, rfl, rfl⟩
  · intro T E adjust validate r ce h
    rw [new_error_iff] at h
    have h1 := congrArg Prod.fst h
    simpa [mkProcess] using h1.symm
  · intro T E adjust validate g f g1 me h
    rw [mutate_eq] at h
    rcases hp : mkProcess adjust validate (f g.value) with ⟨v1, r⟩
    rw [hp] at h
    cases r with
    | none => simp at h
    | some e =>
      simp only [Prod.mk.injEq] at h
      obtain ⟨-, h2⟩ := h
      have h1 := congrArg Prod.fst hp
      simp only [mkProcess] at h1
      cases h2
      exact ⟨h1.symm, rfl⟩

/-- Witness for C3: the failed construction from `"   "` carries the
trimmed (empty) value. -/
theorem errors_carry_adjusted_value_witness :
    (ConstructionError.mk "value is invalid" ([] : List Char)).value = trim blank3 :=
  errors_carry_adjusted_value.1 (List Char) String trim
    (ensureValidate nonEmptyEnsure) blank3 ⟨"value is invalid", []⟩ rfl

/-- C4: an extension chain runs the base contract process first and
short-circuits on its failure: the chained outcome then equals the base
outcome with the base error embedded (so the reported error is the base
one, never one produced by the extending link, whose adjust and validate
are not applied at all), while the adjustments of the links that already
succeeded remain applied to the value embedded in the error; on base
success only the extending adjust and validate run, on the base-adjusted
value. Concretely, for Sentence extending Text, `new(" ")` fails inside
the Text link carrying `""`, `new(" hi ")` fails in the Sentence link
carrying `"hi"`, and `new(" hi! ")` succeeds holding `"hi!"`. -/
theorem extend_runs_base_first :
    (∀ (T Ea Eb : Type) (base : T → T × Option Ea) (emb : Ea → Eb)
        (adjust : T → T) (validate : T → Option Eb) (v v1 : T) (e : Ea),
      base v = (v1, some e) →
        extendProcess base emb adjust validate v = (v1, some (emb e))) ∧
    (∀ (T Ea Eb : Type) (base : T → T × Option Ea) (emb : Ea → Eb)
        (adjust : T → T) (validate : T → Option Eb) (v v1 : T),
      base v = (v1, none) →
        extendProcess base emb adjust validate v =
          (adjust v1, validate (adjust v1))) ∧
    Bounded.new sentenceProcess [' '] = .error ⟨"value is invalid", []⟩ ∧
    Bounded.new sentenceProcess [' ', 'h', 'i', ' '] =
      .error ⟨"value is invalid", ['h', 'i']⟩ ∧
    Bounded.new sentenceProcess [' ', 'h', 'i', '!', ' '] =
      .ok ⟨['h', 'i', '!']⟩ := by
  refine ⟨?_, ?_, rfl, rfl, rfl⟩
  · intro T Ea Eb base emb adjust validate v v1 e h
    unfold extendProcess
    rw [h]
  · intro T Ea Eb base emb adjust validate v v1 h
    unfold extendProcess
    rw [h]

/-- Witness for C4: the Text link rejects `" "` with its own error and
the Sentence link is never consulted. -/
theorem extend_runs_base_first_witness :
    extendProcess usernameProcess id id (ensureValidate endsPunct) [' '] =
      ([], some (id "value is invalid")) :=
  extend_runs_base_first.1 (List Char) String String usernameProcess id id
    (ensureValidate endsPunct) [' '] [] "value is invalid" rfl

/-- C5 counterexample: `verify` does not re-run validation only. With
the increment contract, `new(0)` succeeds holding `1`, the held value
still passes validation alone (`verifyValidateOnly` reports no error),
yet `verify` fails, and the error carries the value `2`, showing that
the adjustment ran again on the already-held value. -/
theorem verify_reruns_adjust_cex :
    Bounded.new bumpProcess 0 = .ok ⟨1⟩ ∧
    verifyValidateOnly atMostOne ⟨1⟩ = none ∧
    Bounded.verify bumpProcess ⟨1⟩ = .error ⟨"value is invalid", 2⟩ :=
  ⟨rfl, rfl, rfl⟩

/-- C5 (amended): `verify` re-runs the full process, adjust included, on
the current held value, keeping the re-adjusted value on success; when
the adjustment is idempotent it returns success, with the container
unchanged, for every container produced by a checked path (`new`, `set`,
`mutate`). -/
theorem verify_full_process_ok_after_checked (adjust : T → T) (validate : T → Option E)
    (hidem : ∀ t, adjust (adjust t) = adjust t) :
    (∀ g : Bounded T,
      Bounded.verify (mkProcess adjust validate) g =
        match validate (adjust g.value) with
        | none => .ok ⟨adjust g.value⟩
        | some e => .error ⟨e, adjust g.value⟩) ∧
    (∀ (r : T) (g : Bounded T), Bounded.new (mkProcess adjust validate) r = .ok g →
      Bounded.verify (mkProcess adjust validate) g = .ok g) ∧
    (∀ (g : Bounded T) (v : T) (g1 : Bounded T),
      Bounded.set (mkProcess adjust validate) g v = (g1, none) →
      Bounded.verify (mkProcess adjust validate) g1 = .ok g1) ∧
    (∀ (g : Bounded T) (f : T → T) (g1 : Bounded T),
      Bounded.mutate (mkProcess adjust validate) g f = (g1, none) →
      Bounded.verify (mkProcess adjust validate) g1 = .ok g1) := by
  have hverify : ∀ g : Bounded T,
      Bounded.verify (mkProcess adjust validate) g =
        match validate (adjust g.value) with
        | none => .ok ⟨adjust g.value⟩
        | some e => .error ⟨e, adjust g.value⟩ := by
    intro g
    unfold Bounded.verify mkProcess
    cases validate (adjust g.value) <;> rfl
  have hok : ∀ w : T, adjust w = w → validate w = none →
      Bounded.verify (mkProcess adjust validate) ⟨w⟩ = .ok ⟨w⟩ := by
    intro w ha hv
    rw [hverify]
    simp only [ha, hv]
  refine ⟨hverify, ?_, ?_, ?_⟩
  · intro r g h
    rw [new_ok_iff] at h
    have h1 := congrArg Prod.fst h
    have h2 := congrArg Prod.snd h
    simp only [mkProcess] at h1 h2
    obtain ⟨w⟩ := g
    simp only at h1 h2
    have := hok w (by rw [← h1, hidem]) (by rw [← h1]; rw [h1] at h2; rw [← h1] at h2; exact h2)
    exact this
  · intro g v g1 h
    rw [set_eq] at h
    rcases hp : mkProcess adjust validate v with ⟨v1, r⟩
    rw [hp] at h
    cases r with
    | none =>
      simp only [Prod.mk.injEq] at h
      have h1 := congrArg Prod.fst hp
      simp only [mkProcess] at h1
      obtain ⟨hg, -⟩ := h
      subst hg
      exact hok v1 (by rw [← h1, hidem]) (by
        have h2 := congrArg Prod.snd hp
        simp only [mkProcess] at h2
        rw [← h1]
        exact h2)
    | some e => simp at h
  · intro g f g1 h
    rw [mutate_eq] at h
    rcases hp : mkProcess adjust validate (f g.value) with ⟨v1, r⟩
    rw [hp] at h
    cases r with
    | none =>
      simp only [Prod.mk.injEq] at h
      have h1 := congrArg Prod.fst hp
      simp only [mkProcess] at h1
      obtain ⟨hg, -⟩ := h
      subst hg
      exact hok v1 (by rw [← h1, hidem]) (by
        have h2 := congrArg Prod.snd hp
        simp only [mkProcess] at h2
        rw [← h1]
        exact h2)
    | some e => simp at h

/-- Witness for the amended C5 at a contract with identity adjustment:
the container produced by `new 1` passes `verify` unchanged. -/
theorem verify_full_process_ok_after_checked_witness :
    Bounded.verify (mkProcess (id : Nat → Nat) atMostOne) ⟨1⟩ = .ok ⟨1⟩ :=
  (verify_full_process_ok_after_checked (id : Nat → Nat) atMostOne
    (fun _ => rfl)).2.1 1 ⟨1⟩ rfl

/-- C7: deserialization routes through the identical `new` pipeline:
it succeeds exactly when `new` succeeds on the decoded raw value, holding
the same adjusted value, and a failure surfaces the inner contract error;
serialization is a pure pass-through of the inner value. -/
theorem deserialize_routes_through_new (p : T → T × Option E) :
    (∀ (r : T) (g : Bounded T),
      Bounded.new p r = .ok g → Bounded.deserialize p r = .ok g) ∧
    (∀ (r : T) (ce : ConstructionError T E),
      Bounded.new p r = .error ce → Bounded.deserialize p r = .error ce.inner) ∧
    (∀ g : Bounded T, Bounded.serialize g = g.get) := by
  refine ⟨?_, ?_, fun _ => rfl⟩
  · intro r g h
    unfold Bounded.deserialize
    rw [h]
  · intro r ce h
    unfold Bounded.deserialize
    rw [h]

/-- Witness for C7 at the Username contract: deserializing `" user "`
succeeds holding `"user"`, and deserializing `"   "` fails with the
inner error. -/
theorem deserialize_routes_through_new_witness :
    Bounded.deserialize usernameProcess rawUser = .ok ⟨userChars⟩ ∧
    Bounded.deserialize usernameProcess blank3 = .error "value is invalid" :=
  ⟨(deserialize_routes_through_new usernameProcess).1 rawUser ⟨userChars⟩ rfl,
   (deserialize_routes_through_new usernameProcess).2.1 blank3
      ⟨"value is invalid", []⟩ rfl⟩

/-- C8 counterexample: the claim fails for the contract whose adjustment
increments the number; that contract is accepted by the generator like
any other (its `new` works), the value `0` is valid for it, yet applying
the adjustment twice differs from applying it once. -/
theorem adjust_not_always_idempotent :
    atMostOne 0 = none ∧
    Bounded.new bumpProcess 0 = .ok ⟨1⟩ ∧
    bumpAdjust (bumpAdjust 0) ≠ bumpAdjust 0 :=
  ⟨rfl, rfl, by decide⟩

/-- Helper: the head of a `dropWhile` result falsifies the predicate. -/
theorem dropWhile_head_false {α : Type} (p : α → Bool) :
    ∀ (l : List α) (c : α) (t : List α), l.dropWhile p = c :: t → p c = false := by
  intro l
  induction l with
  | nil =>
    intro c t h
    simp [List.dropWhile] at h
  | cons a l ih =>
    intro c t h
    rw [List.dropWhile_cons] at h
    split at h
    · exact ih c t h
    · next ha =>
      cases h
      exact eq_false_of_ne_true ha

/-- Helper: `dropWhile` distributes over appending one element that
falsifies the predicate. -/
theorem dropWhile_append_singleton {α : Type} (p : α → Bool) (c : α)
    (hc : p c = false) : ∀ l : List α,
    (l ++ [c]).dropWhile p = l.dropWhile p ++ [c] := by
  intro l
  induction l with
  | nil => simp [List.dropWhile, hc]
  | cons a l ih =>
    by_cases ha : p a
    · simp [List.dropWhile_cons, ha, ih]
    · simp [List.dropWhile_cons, ha]

/-- C8 (amended): idempotence of adjust is an obligation on the
user-supplied closure, not enforced by the code; it does hold for the
canonical adjustment used throughout the repository, whitespace
trimming: applying `trim` twice equals applying it once. -/
theorem trim_adjust_idempotent (s : List Char) : trim (trim s) = trim s := by
  unfold trim
  have h1 : (((s.dropWhile isSpace).reverse.dropWhile isSpace).reverse).dropWhile isSpace
      = ((s.dropWhile isSpace).reverse.dropWhile isSpace).reverse := by
    cases ht : s.dropWhile isSpace with
    | nil => simp
    | cons c t =>
      have hc : isSpace c = false := dropWhile_head_false isSpace s c t ht
      rw [List.reverse_cons, dropWhile_append_singleton isSpace c hc,
        List.reverse_append]
      simp [List.dropWhile_cons, hc]
  rw [h1, List.reverse_reverse, List.dropWhile_idempotent]

end Prae
